import Mathlib

/-!
Shallow embedding of the data-normalization and view-state derivation pipeline
of the stock dashboard (src/app/page.tsx), together with theorems settling the
specification claims about it.

JavaScript numbers are modelled by `JSNum`: NaN, the two infinities, and finite
values as exact rationals (the claims under study concern NaN/Infinity
propagation and sign/comparison behaviour, not binary rounding).  Raw payload
fields are modelled by `RawVal`: a field is absent, present but not parseable
as a number, or present with a numeric value.
-/

/-- Model of a JavaScript number: NaN, +Infinity, -Infinity, or a finite value
(as an exact rational). -/
inductive JSNum
  | nan
  | posInf
  | negInf
  | num (q : ℚ)
deriving DecidableEq

/-- JavaScript subtraction `a - b` on `JSNum`. -/
def JSNum.sub : JSNum → JSNum → JSNum
  | nan, _ => nan
  | _, nan => nan
  | posInf, posInf => nan
  | posInf, negInf => posInf
  | posInf, num _ => posInf
  | negInf, negInf => nan
  | negInf, posInf => negInf
  | negInf, num _ => negInf
  | num _, posInf => negInf
  | num _, negInf => posInf
  | num a, num b => num (a - b)

/-- JavaScript multiplication `a * b` on `JSNum`. -/
def JSNum.mul : JSNum → JSNum → JSNum
  | nan, _ => nan
  | _, nan => nan
  | posInf, posInf => posInf
  | posInf, negInf => negInf
  | posInf, num q => if 0 < q then posInf else if q < 0 then negInf else nan
  | negInf, posInf => negInf
  | negInf, negInf => posInf
  | negInf, num q => if 0 < q then negInf else if q < 0 then posInf else nan
  | num q, posInf => if 0 < q then posInf else if q < 0 then negInf else nan
  | num q, negInf => if 0 < q then negInf else if q < 0 then posInf else nan
  | num a, num b => num (a * b)

/-- JavaScript division `a / b` on `JSNum`.  The model's rational `0` stands
for JavaScript's `+0` (the payloads under study never produce `-0`). -/
def JSNum.div : JSNum → JSNum → JSNum
  | nan, _ => nan
  | _, nan => nan
  | posInf, posInf => nan
  | posInf, negInf => nan
  | negInf, posInf => nan
  | negInf, negInf => nan
  | posInf, num q => if 0 ≤ q then posInf else negInf
  | negInf, num q => if 0 ≤ q then negInf else posInf
  | num _, posInf => num 0
  | num _, negInf => num 0
  | num a, num b =>
    if b = 0 then (if 0 < a then posInf else if a < 0 then negInf else nan)
    else num (a / b)

/-- JavaScript strict comparison `a < b` on `JSNum` (false whenever NaN is
involved). -/
def JSNum.lt : JSNum → JSNum → Bool
  | nan, _ => false
  | _, nan => false
  | negInf, negInf => false
  | negInf, _ => true
  | posInf, _ => false
  | num _, posInf => true
  | num _, negInf => false
  | num a, num b => decide (a < b)

/-- JavaScript comparison `a > b`, i.e. `b < a`. -/
def jsGt (a b : JSNum) : Bool := JSNum.lt b a

/-- JavaScript loose/strict numeric equality `a == b` (false whenever NaN is
involved). -/
def jsEq : JSNum → JSNum → Bool
  | .nan, _ => false
  | _, .nan => false
  | .posInf, .posInf => true
  | .posInf, .negInf => false
  | .posInf, .num _ => false
  | .negInf, .posInf => false
  | .negInf, .negInf => true
  | .negInf, .num _ => false
  | .num _, .posInf => false
  | .num _, .negInf => false
  | .num a, .num b => decide (a = b)

/-- JavaScript truthiness of a number: `NaN` and `0` are falsy, everything
else is truthy. -/
def JSNum.truthy : JSNum → Bool
  | nan => false
  | num q => decide (q ≠ 0)
  | _ => true

/-- Whether a `JSNum` is a finite value. -/
def JSNum.isFinite : JSNum → Bool
  | num _ => true
  | _ => false

/-- The JavaScript idiom `v || 0` applied to a number: yields `v` when truthy,
`0` otherwise (so `NaN || 0` and `0 || 0` are `0`). -/
def jsOrZero (v : JSNum) : JSNum := if v.truthy then v else JSNum.num 0

/-- A raw string field of a provider payload, abstracted by how numeric
parsing sees it: absent, present but not parseable as a number, or parseable
with the given value. -/
inductive RawVal
  | missing
  | nonNumeric
  | numeric (q : ℚ)
deriving DecidableEq

/-- JavaScript `parseFloat` applied to a raw field (`NaN` when the field is
absent or not numeric). -/
def parseFloat : RawVal → JSNum
  | .missing => .nan
  | .nonNumeric => .nan
  | .numeric q => .num q

/-- JavaScript `parseInt` applied to a raw field (`NaN` when the field is
absent or not numeric; numeric text is truncated toward zero, which agrees
with `parseInt` on the provider's integer volume strings). -/
def parseInt : RawVal → JSNum
  | .missing => .nan
  | .nonNumeric => .nan
  | .numeric q => .num ((q.num / (q.den : ℤ) : ℤ) : ℚ)

/-- One entry of the `Time Series (5min)` map: the fields read by the code,
`"4. close"` and `"5. volume"` (the unread OHLC fields are omitted). -/
structure RawEntry where
  close : RawVal
  volume : RawVal
deriving DecidableEq

/-- A decoded Alpha Vantage intraday payload: whether `"Meta Data"` is present
(objects are always truthy, so presence is all that matters), and the
`"Time Series (5min)"` map as its key/entry pairs in `Object.keys` order
(provider-native order, newest first). -/
structure RawPayload where
  meta : Bool
  timeSeries : Option (List (String × RawEntry))
deriving DecidableEq

/-- The canonical record, `interface StockData` in src/app/page.tsx. -/
structure StockData where
  symbol : String
  name : String
  price : JSNum
  change : JSNum
  changePercent : JSNum
  volume : JSNum
  marketCap : Option ℚ
deriving DecidableEq

/-- The `COMPANY_NAMES` mapping of src/app/page.tsx. -/
def COMPANY_NAMES : List (String × String) :=
  [("AAPL", "Apple Inc."), ("MSFT", "Microsoft Corporation"),
   ("GOOGL", "Alphabet Inc."), ("TSLA", "Tesla, Inc."),
   ("AMZN", "Amazon.com Inc."), ("NVDA", "NVIDIA Corporation")]

/-- Association-list lookup used to model `COMPANY_NAMES[symbol]`. -/
def lookupName : List (String × String) → String → Option String
  | [], _ => none
  | (k, v) :: rest, s => if k = s then some v else lookupName rest s

/-- The idiom `COMPANY_NAMES[symbol] || symbol` (every table value is a
non-empty, hence truthy, string). -/
def companyName (s : String) : String := (lookupName COMPANY_NAMES s).getD s

/-- `parseStockData` from src/app/page.tsx lines 60-83.  Returns `null` when
`"Meta Data"` or the time series is missing, or when the series has fewer than
two entries (`!last || !prev`); otherwise builds the record from the two most
recent entries without validating that the parsed fields are numbers. -/
def parseStockData (symbol : String) (data : RawPayload) : Option StockData :=
  match data.meta, data.timeSeries with
  | false, _ => none
  | true, none => none
  | true, some timeSeries =>
    match timeSeries with
    | [] => none
    | [_] => none
    | (_, last) :: (_, prev) :: _ =>
      let price := parseFloat last.close
      let prevPrice := parseFloat prev.close
      let change := price.sub prevPrice
      let changePercent := (change.div prevPrice).mul (JSNum.num 100)
      let volume := parseInt last.volume
      some
        { symbol := symbol
          name := companyName symbol
          price := price
          change := change
          changePercent := changePercent
          volume := volume
          marketCap := none }

/-!  Summary statistics derived in `StockDashboard` (src/app/page.tsx lines
236-244) and the rendering of the market-cap total (lines 287-289). -/

/-- The idiom `stock?.marketCap || 0`: an absent market cap contributes `0`,
and a present one contributes its own value (present `0` is falsy, but
`0 || 0` is still `0`). -/
def marketCapOrZero : Option ℚ → ℚ
  | none => 0
  | some q => if q = 0 then 0 else q

/-- `totalMarketCap`: `stocks.reduce((sum, stock) => sum + (stock?.marketCap || 0), 0)`. -/
def totalMarketCap (stocks : List StockData) : ℚ :=
  stocks.foldl (fun sum stock => sum + marketCapOrZero stock.marketCap) 0

/-- `hasMarketCap`: `stocks.some((stock) => stock?.marketCap && stock.marketCap > 0)`
(an absent or zero market cap is falsy and short-circuits to false). -/
def hasMarketCap (stocks : List StockData) : Bool :=
  stocks.any fun stock =>
    match stock.marketCap with
    | none => false
    | some q => if q = 0 then false else decide (0 < q)

/-- `gainers`: `stocks.filter((stock) => stock?.change > 0).length`. -/
def gainers (stocks : List StockData) : Nat :=
  (stocks.filter fun stock => jsGt stock.change (JSNum.num 0)).length

/-- `losers`: `stocks.filter((stock) => stock?.change < 0).length`. -/
def losers (stocks : List StockData) : Nat :=
  (stocks.filter fun stock => JSNum.lt stock.change (JSNum.num 0)).length

/-- Two-digit fixed-point rendering of a rational, modelling `toFixed(2)`
(rounding to the nearest hundredth). -/
def toFixed2 (q : ℚ) : String :=
  let n : ℤ := round (q * 100)
  let frac : ℕ := n.natAbs % 100
  (if n < 0 then "-" else "") ++ toString (n.natAbs / 100) ++ "." ++
    (if frac < 10 then "0" else "") ++ toString frac

/-- `formatNumber` from src/app/page.tsx lines 85-91. -/
def formatNumber (q : ℚ) : String :=
  if 1000000000000 ≤ q then "$" ++ toFixed2 (q / 1000000000000) ++ "T"
  else if 1000000000 ≤ q then "$" ++ toFixed2 (q / 1000000000) ++ "B"
  else if 1000000 ≤ q then "$" ++ toFixed2 (q / 1000000) ++ "M"
  else if 1000 ≤ q then "$" ++ toFixed2 (q / 1000) ++ "K"
  else "$" ++ toFixed2 q

/-- The rendered Total Market Cap figure:
`hasMarketCap ? formatNumber(totalMarketCap) : "N/A"` (lines 287-289). -/
def renderTotalMarketCap (stocks : List StockData) : String :=
  if hasMarketCap stocks then formatNumber (totalMarketCap stocks) else "N/A"

/-!  Sorting (src/app/page.tsx lines 212-224) and the sort-control state
machine `handleSort` (lines 226-234). -/

/-- The sortable columns, `"symbol" | "price" | "change" | "volume"`. -/
inductive SortKey
  | symbol
  | price
  | change
  | volume
deriving DecidableEq

/-- Sort direction, `"asc" | "desc"`. -/
inductive SortOrder
  | asc
  | desc
deriving DecidableEq

/-- The sort-control state `(sortBy, sortOrder)`. -/
structure SortState where
  sortBy : SortKey
  sortOrder : SortOrder
deriving DecidableEq

/-- The direction toggle `sortOrder === "asc" ? "desc" : "asc"`. -/
def toggleOrder : SortOrder → SortOrder
  | .asc => .desc
  | .desc => .asc

/-- `handleSort(column)`: clicking the active column flips the direction,
clicking another column selects it with ascending direction. -/
def handleSort (column : SortKey) (s : SortState) : SortState :=
  if s.sortBy = column then { s with sortOrder := toggleOrder s.sortOrder }
  else { sortBy := column, sortOrder := .asc }

/-- Code-point comparison of character lists, the model of
`String.prototype.localeCompare` (which is code-point lexicographic on the
uppercase ASCII ticker symbols involved); returns -1, 0 or 1. -/
def charCmp : List Char → List Char → ℚ
  | [], [] => 0
  | [], _ :: _ => -1
  | _ :: _, [] => 1
  | a :: as, b :: bs =>
    if a.val.toNat < b.val.toNat then -1
    else if b.val.toNat < a.val.toNat then 1
    else charCmp as bs

/-- `aValue.localeCompare(bValue)` for the string sort key. -/
def strCmp (s t : String) : ℚ := charCmp s.data t.data

/-- The multiplier `sortOrder === "asc" ? 1 : -1`. -/
def multiplier : SortOrder → JSNum
  | .asc => JSNum.num 1
  | .desc => JSNum.num (-1)

/-- The sort comparator of `sortedStocks`: locale comparison for the string
key `symbol`, numeric difference for the numeric keys, both scaled by the
direction multiplier.  (The `aValue == null` guard of the source is dead in
this model because every sortable field of `StockData` is always set.) -/
def cmpStocks (k : SortKey) (d : SortOrder) (a b : StockData) : JSNum :=
  match k with
  | .symbol => (JSNum.num (strCmp a.symbol b.symbol)).mul (multiplier d)
  | .price => (a.price.sub b.price).mul (multiplier d)
  | .change => (a.change.sub b.change).mul (multiplier d)
  | .volume => (a.volume.sub b.volume).mul (multiplier d)

/-- Whether a comparator result is at most zero, i.e. whether the first
argument may be placed before the second by a stable sort (a NaN comparator
result never demands a swap). -/
def jsLe0 : JSNum → Bool
  | .nan => false
  | .posInf => false
  | .negInf => true
  | .num q => decide (q ≤ 0)

/-- The "may come before" relation induced by the comparator. -/
def stockLe (k : SortKey) (d : SortOrder) (a b : StockData) : Prop :=
  jsLe0 (cmpStocks k d a b) = true

instance stockLe.instDecidable (k : SortKey) (d : SortOrder) :
    DecidableRel (stockLe k d) := fun _ _ => instDecidableEqBool _ _

/-- `sortedStocks`: a stable sort of the record list by the comparator
(ECMAScript `Array.prototype.sort` is stable; with a consistent comparator its
output is exactly the stable insertion sort by the "may come before"
relation). -/
def sortStocks (k : SortKey) (d : SortOrder) (l : List StockData) : List StockData :=
  List.insertionSort (stockLe k d) l

/-- Whether the field selected by a sort key is a finite number for this
record (`symbol` is a string and always comparable). -/
def keyFinite (k : SortKey) (r : StockData) : Bool :=
  match k with
  | .symbol => true
  | .price => r.price.isFinite
  | .change => r.change.isFinite
  | .volume => r.volume.isFinite

/-!  Chart series builder (src/app/page.tsx lines 139-150):
`Object.entries(timeSeries).map(([time, values]) => ({time, price: parseFloat(values["4. close"])})).reverse()`. -/

/-- One chart point per series entry, pairing the timestamp label with the
parsed close price. -/
def chartPoint (p : String × RawEntry) : String × JSNum :=
  (p.1, parseFloat p.2.close)

/-- The chart array built from a present time series map. -/
def buildSeries (ts : List (String × RawEntry)) : List (String × JSNum) :=
  (ts.map chartPoint).reverse

/-- The chart data for a payload: empty when the series is absent, otherwise
`buildSeries` of the entries. -/
def chartSeries (data : RawPayload) : List (String × JSNum) :=
  match data.timeSeries with
  | none => []
  | some ts => buildSeries ts

/-!  Generic facts about stable insertion sort (`List.insertionSort`) for a
relation that is only total/transitive on the elements actually present
(the JavaScript comparator is not consistent on NaN-valued fields, so the
global `IsTotal`/`IsTrans` instances of Mathlib are not available). -/

theorem sorted_orderedInsert_of {α : Type} (le : α → α → Prop) [DecidableRel le] (P : α → Prop)
    (htot : ∀ a b, P a → P b → le a b ∨ le b a)
    (htr : ∀ a b c, P a → P b → P c → le a b → le b c → le a c) :
    ∀ (l : List α) (a : α), (∀ x ∈ l, P x) → P a → l.Sorted le →
      (List.orderedInsert le a l).Sorted le
  | [], a, _, _, _ => List.sorted_singleton a
  | b :: t, a, hP, hPa, hs => by
    rw [List.orderedInsert]
    by_cases h : le a b
    · rw [if_pos h, List.sorted_cons]
      refine ⟨?_, hs⟩
      intro y hy
      rcases List.mem_cons.mp hy with rfl | hyt
      · exact h
      · exact htr a b y hPa (hP b (List.mem_cons_self b t))
          (hP y (List.mem_cons_of_mem b hyt)) h (List.rel_of_sorted_cons hs y hyt)
    · rw [if_neg h, List.sorted_cons]
      constructor
      · intro y hy
        rcases (List.mem_orderedInsert le).mp hy with hya | hyt
        · rw [hya]
          exact (htot a b hPa (hP b (List.mem_cons_self b t))).resolve_left h
        · exact List.rel_of_sorted_cons hs y hyt
      · exact sorted_orderedInsert_of le P htot htr t a
          (fun x hx => hP x (List.mem_cons_of_mem b hx)) hPa hs.of_cons

theorem sorted_insertionSort_of {α : Type} (le : α → α → Prop) [DecidableRel le] (P : α → Prop)
    (htot : ∀ a b, P a → P b → le a b ∨ le b a)
    (htr : ∀ a b c, P a → P b → P c → le a b → le b c → le a c) :
    ∀ l : List α, (∀ x ∈ l, P x) → (List.insertionSort le l).Sorted le
  | [], _ => List.sorted_nil
  | a :: t, hP => by
    rw [List.insertionSort]
    refine sorted_orderedInsert_of le P htot htr _ a ?_ (hP a (List.mem_cons_self a t)) ?_
    · intro x hx
      exact hP x (List.mem_cons_of_mem a ((List.mem_insertionSort le).mp hx))
    · exact sorted_insertionSort_of le P htot htr t
        (fun x hx => hP x (List.mem_cons_of_mem a hx))

theorem filter_orderedInsert_pos {α : Type} (le : α → α → Prop) [DecidableRel le] (p : α → Bool) :
    ∀ (l : List α) (a : α), p a = true → (∀ y, p y = true → le a y) →
      (List.orderedInsert le a l).filter p = a :: l.filter p
  | [], a, hpa, _ => by simp [List.orderedInsert, List.filter_cons, hpa]
  | b :: t, a, hpa, hcomp => by
    rw [List.orderedInsert]
    by_cases h : le a b
    · rw [if_pos h]
      simp [List.filter_cons, hpa]
    · have hpb : p b = false := by
        cases hq : p b
        · rfl
        · exact absurd (hcomp b hq) h
      rw [if_neg h, List.filter_cons, List.filter_cons, hpb]
      simp only [Bool.false_eq_true, if_false]
      exact filter_orderedInsert_pos le p t a hpa hcomp

theorem filter_orderedInsert_neg {α : Type} (le : α → α → Prop) [DecidableRel le] (p : α → Bool) :
    ∀ (l : List α) (a : α), p a = false →
      (List.orderedInsert le a l).filter p = l.filter p
  | [], a, hpa => by simp [List.orderedInsert, List.filter_cons, hpa]
  | b :: t, a, hpa => by
    rw [List.orderedInsert]
    by_cases h : le a b
    · rw [if_pos h]
      simp [List.filter_cons, hpa]
    · rw [if_neg h, List.filter_cons, List.filter_cons]
      cases hq : p b <;>
        simp [filter_orderedInsert_neg le p t a hpa]

theorem filter_insertionSort_of {α : Type} (le : α → α → Prop) [DecidableRel le] (p : α → Bool)
    (hcomp : ∀ a b, p a = true → p b = true → le a b) :
    ∀ l : List α, (List.insertionSort le l).filter p = l.filter p
  | [] => rfl
  | a :: t => by
    rw [List.insertionSort]
    cases hpa : p a
    · rw [filter_orderedInsert_neg le p _ a hpa, filter_insertionSort_of le p hcomp t,
        List.filter_cons, hpa]
      simp
    · rw [filter_orderedInsert_pos le p _ a hpa (fun y hy => hcomp a y hpa hy),
        filter_insertionSort_of le p hcomp t, List.filter_cons, hpa]
      simp

theorem orderedInsert_append_of {α : Type} (le : α → α → Prop) [DecidableRel le] :
    ∀ (l : List α) (a : α), (∀ y ∈ l, ¬ le a y) → List.orderedInsert le a l = l ++ [a]
  | [], _, _ => rfl
  | b :: t, a, h => by
    rw [List.orderedInsert, if_neg (h b (List.mem_cons_self b t)),
      orderedInsert_append_of le t a (fun y hy => h y (List.mem_cons_of_mem b hy))]
    simp

/-!  Order theory of the code-point comparison `charCmp` / `strCmp`. -/

theorem charCmp_refl : ∀ l : List Char, charCmp l l = 0
  | [] => rfl
  | a :: as => by
    simp only [charCmp]
    rw [if_neg (Nat.lt_irrefl _), if_neg (Nat.lt_irrefl _)]
    exact charCmp_refl as

theorem charCmp_swap : ∀ a b : List Char, charCmp a b = -charCmp b a
  | [], [] => by norm_num [charCmp]
  | [], _ :: _ => by norm_num [charCmp]
  | _ :: _, [] => by norm_num [charCmp]
  | a :: as, b :: bs => by
    simp only [charCmp]
    rcases Nat.lt_trichotomy a.val.toNat b.val.toNat with h | h | h
    · rw [if_pos h, if_neg (Nat.lt_asymm h), if_pos h]
    · rw [if_neg (by omega), if_neg (by omega), if_neg (by omega), if_neg (by omega)]
      exact charCmp_swap as bs
    · rw [if_neg (Nat.lt_asymm h), if_pos h, if_pos h]
      norm_num

theorem charCmp_cases : ∀ a b : List Char, charCmp a b = -1 ∨ charCmp a b = 0 ∨ charCmp a b = 1
  | [], [] => Or.inr (Or.inl rfl)
  | [], _ :: _ => Or.inl rfl
  | _ :: _, [] => Or.inr (Or.inr rfl)
  | a :: as, b :: bs => by
    simp only [charCmp]
    split_ifs
    · exact Or.inl rfl
    · exact Or.inr (Or.inr rfl)
    · exact charCmp_cases as bs

theorem charCmp_eq_zero : ∀ a b : List Char, charCmp a b = 0 → a = b
  | [], [], _ => rfl
  | [], _ :: _, h => by norm_num [charCmp] at h
  | _ :: _, [], h => by norm_num [charCmp] at h
  | a :: as, b :: bs, h => by
    simp only [charCmp] at h
    split_ifs at h with h1 h2
    · norm_num at h
    · norm_num at h
    · have hab : a = b := Char.ext (UInt32.ext (by omega))
      rw [hab, charCmp_eq_zero as bs h]

theorem charCmp_neg_trans :
    ∀ a b c : List Char, charCmp a b = -1 → charCmp b c = -1 → charCmp a c = -1 := by
  intro a
  induction a with
  | nil =>
    intro b c hab hbc
    cases b with
    | nil => norm_num [charCmp] at hab
    | cons y bs =>
      cases c with
      | nil => norm_num [charCmp] at hbc
      | cons z cs => norm_num [charCmp]
  | cons x as ih =>
    intro b c hab hbc
    cases b with
    | nil => norm_num [charCmp] at hab
    | cons y bs =>
      cases c with
      | nil => norm_num [charCmp] at hbc
      | cons z cs =>
        simp only [charCmp] at hab hbc ⊢
        split_ifs at hab with h1 h2
        · split_ifs at hbc with h3 h4
          · rw [if_pos (by omega)]
          · norm_num at hbc
          · rw [if_pos (by omega)]
        · norm_num at hab
        · split_ifs at hbc with h3 h4
          · rw [if_pos (by omega)]
          · norm_num at hbc
          · rw [if_neg (by omega), if_neg (by omega)]
            exact ih bs cs hab hbc

theorem charCmp_le_trans (a b c : List Char) (hab : charCmp a b ≤ 0) (hbc : charCmp b c ≤ 0) :
    charCmp a c ≤ 0 := by
  rcases charCmp_cases a b with h1 | h1 | h1
  · rcases charCmp_cases b c with h2 | h2 | h2
    · rw [charCmp_neg_trans a b c h1 h2]
      norm_num
    · rw [← charCmp_eq_zero b c h2, h1]
      norm_num
    · rw [h2] at hbc
      norm_num at hbc
  · rw [charCmp_eq_zero a b h1]
    exact hbc
  · rw [h1] at hab
    norm_num at hab

theorem strCmp_refl (s : String) : strCmp s s = 0 := charCmp_refl s.data

theorem strCmp_swap (s t : String) : strCmp s t = -strCmp t s := charCmp_swap s.data t.data

theorem strCmp_cases (s t : String) : strCmp s t = -1 ∨ strCmp s t = 0 ∨ strCmp s t = 1 :=
  charCmp_cases s.data t.data

theorem strCmp_eq_zero (s t : String) (h : strCmp s t = 0) : s = t := by
  have hd := charCmp_eq_zero s.data t.data h
  cases s
  cases t
  exact congrArg String.mk hd

theorem strCmp_le_trans (s t u : String) (h1 : strCmp s t ≤ 0) (h2 : strCmp t u ≤ 0) :
    strCmp s u ≤ 0 := charCmp_le_trans s.data t.data u.data h1 h2

/-!  Properties of the comparator-induced relation `stockLe`. -/

theorem isFinite_iff (v : JSNum) : v.isFinite = true ↔ ∃ q, v = JSNum.num q := by
  cases v <;> simp [JSNum.isFinite]

theorem stockLe_symbol_asc (a b : StockData) :
    stockLe .symbol .asc a b ↔ strCmp a.symbol b.symbol ≤ 0 := by
  simp [stockLe, cmpStocks, multiplier, JSNum.mul, jsLe0]

theorem stockLe_symbol_desc (a b : StockData) :
    stockLe .symbol .desc a b ↔ 0 ≤ strCmp a.symbol b.symbol := by
  simp only [stockLe, cmpStocks, multiplier, JSNum.mul, jsLe0, decide_eq_true_eq]
  constructor <;> intro h <;> nlinarith

theorem jsLe0_sub_mul_asc (x y : ℚ) :
    jsLe0 (((JSNum.num x).sub (JSNum.num y)).mul (multiplier .asc)) = true ↔ x ≤ y := by
  simp only [JSNum.sub, JSNum.mul, multiplier, jsLe0, decide_eq_true_eq]
  constructor <;> intro h <;> linarith

theorem jsLe0_sub_mul_desc (x y : ℚ) :
    jsLe0 (((JSNum.num x).sub (JSNum.num y)).mul (multiplier .desc)) = true ↔ y ≤ x := by
  simp only [JSNum.sub, JSNum.mul, multiplier, jsLe0, decide_eq_true_eq]
  constructor <;> intro h <;> nlinarith

theorem stockLe_total (k : SortKey) (d : SortOrder) (a b : StockData)
    (ha : keyFinite k a = true) (hb : keyFinite k b = true) :
    stockLe k d a b ∨ stockLe k d b a := by
  cases k
  case symbol =>
    cases d
    case asc =>
      rw [stockLe_symbol_asc, stockLe_symbol_asc]
      have hsw := strCmp_swap a.symbol b.symbol
      rcases strCmp_cases a.symbol b.symbol with h1 | h1 | h1
      · left; linarith
      · left; linarith
      · right; linarith
    case desc =>
      rw [stockLe_symbol_desc, stockLe_symbol_desc]
      have hsw := strCmp_swap a.symbol b.symbol
      rcases strCmp_cases a.symbol b.symbol with h1 | h1 | h1
      · right; linarith
      · left; linarith
      · left; linarith
  case price =>
    simp only [keyFinite] at ha hb
    obtain ⟨x, hx⟩ := (isFinite_iff _).mp ha
    obtain ⟨y, hy⟩ := (isFinite_iff _).mp hb
    cases d
    case asc =>
      simp only [stockLe, cmpStocks, hx, hy, jsLe0_sub_mul_asc]
      exact le_total x y
    case desc =>
      simp only [stockLe, cmpStocks, hx, hy, jsLe0_sub_mul_desc]
      exact le_total y x
  case change =>
    simp only [keyFinite] at ha hb
    obtain ⟨x, hx⟩ := (isFinite_iff _).mp ha
    obtain ⟨y, hy⟩ := (isFinite_iff _).mp hb
    cases d
    case asc =>
      simp only [stockLe, cmpStocks, hx, hy, jsLe0_sub_mul_asc]
      exact le_total x y
    case desc =>
      simp only [stockLe, cmpStocks, hx, hy, jsLe0_sub_mul_desc]
      exact le_total y x
  case volume =>
    simp only [keyFinite] at ha hb
    obtain ⟨x, hx⟩ := (isFinite_iff _).mp ha
    obtain ⟨y, hy⟩ := (isFinite_iff _).mp hb
    cases d
    case asc =>
      simp only [stockLe, cmpStocks, hx, hy, jsLe0_sub_mul_asc]
      exact le_total x y
    case desc =>
      simp only [stockLe, cmpStocks, hx, hy, jsLe0_sub_mul_desc]
      exact le_total y x

theorem stockLe_trans (k : SortKey) (d : SortOrder) (a b c : StockData)
    (ha : keyFinite k a = true) (hb : keyFinite k b = true) (hc : keyFinite k c = true)
    (h1 : stockLe k d a b) (h2 : stockLe k d b c) : stockLe k d a c := by
  cases k
  case symbol =>
    cases d
    case asc =>
      rw [stockLe_symbol_asc] at h1 h2 ⊢
      exact strCmp_le_trans _ _ _ h1 h2
    case desc =>
      rw [stockLe_symbol_desc] at h1 h2 ⊢
      have s1 := strCmp_swap a.symbol b.symbol
      have s2 := strCmp_swap b.symbol c.symbol
      have s3 := strCmp_swap a.symbol c.symbol
      have := strCmp_le_trans c.symbol b.symbol a.symbol (by linarith) (by linarith)
      linarith
  case price =>
    simp only [keyFinite] at ha hb hc
    obtain ⟨x, hx⟩ := (isFinite_iff _).mp ha
    obtain ⟨y, hy⟩ := (isFinite_iff _).mp hb
    obtain ⟨z, hz⟩ := (isFinite_iff _).mp hc
    cases d
    case asc =>
      rw [stockLe, cmpStocks, hx, hy, jsLe0_sub_mul_asc] at h1
      rw [stockLe, cmpStocks, hy, hz, jsLe0_sub_mul_asc] at h2
      rw [stockLe, cmpStocks, hx, hz, jsLe0_sub_mul_asc]
      linarith
    case desc =>
      rw [stockLe, cmpStocks, hx, hy, jsLe0_sub_mul_desc] at h1
      rw [stockLe, cmpStocks, hy, hz, jsLe0_sub_mul_desc] at h2
      rw [stockLe, cmpStocks, hx, hz, jsLe0_sub_mul_desc]
      linarith
  case change =>
    simp only [keyFinite] at ha hb hc
    obtain ⟨x, hx⟩ := (isFinite_iff _).mp ha
    obtain ⟨y, hy⟩ := (isFinite_iff _).mp hb
    obtain ⟨z, hz⟩ := (isFinite_iff _).mp hc
    cases d
    case asc =>
      rw [stockLe, cmpStocks, hx, hy, jsLe0_sub_mul_asc] at h1
      rw [stockLe, cmpStocks, hy, hz, jsLe0_sub_mul_asc] at h2
      rw [stockLe, cmpStocks, hx, hz, jsLe0_sub_mul_asc]
      linarith
    case desc =>
      rw [stockLe, cmpStocks, hx, hy, jsLe0_sub_mul_desc] at h1
      rw [stockLe, cmpStocks, hy, hz, jsLe0_sub_mul_desc] at h2
      rw [stockLe, cmpStocks, hx, hz, jsLe0_sub_mul_desc]
      linarith
  case volume =>
    simp only [keyFinite] at ha hb hc
    obtain ⟨x, hx⟩ := (isFinite_iff _).mp ha
    obtain ⟨y, hy⟩ := (isFinite_iff _).mp hb
    obtain ⟨z, hz⟩ := (isFinite_iff _).mp hc
    cases d
    case asc =>
      rw [stockLe, cmpStocks, hx, hy, jsLe0_sub_mul_asc] at h1
      rw [stockLe, cmpStocks, hy, hz, jsLe0_sub_mul_asc] at h2
      rw [stockLe, cmpStocks, hx, hz, jsLe0_sub_mul_asc]
      linarith
    case desc =>
      rw [stockLe, cmpStocks, hx, hy, jsLe0_sub_mul_desc] at h1
      rw [stockLe, cmpStocks, hy, hz, jsLe0_sub_mul_desc] at h2
      rw [stockLe, cmpStocks, hx, hz, jsLe0_sub_mul_desc]
      linarith

theorem symCmp_zero (d : SortOrder) (s t : String)
    (h : (JSNum.num (strCmp s t)).mul (multiplier d) = JSNum.num 0) : s = t := by
  cases d <;> simp only [JSNum.mul, multiplier, JSNum.num.injEq] at h <;>
    exact strCmp_eq_zero s t (by linarith)

theorem numCmp_zero (d : SortOrder) (u v : JSNum)
    (h : (u.sub v).mul (multiplier d) = JSNum.num 0) :
    ∃ x, u = JSNum.num x ∧ v = JSNum.num x := by
  cases u <;> cases v <;> cases d <;>
    simp [JSNum.sub, JSNum.mul, multiplier, sub_eq_zero] at h
  all_goals try norm_num at h
  all_goals try cases h
  all_goals exact ⟨_, rfl, rfl⟩

theorem numCmp_self_le (d : SortOrder) (y : ℚ) :
    jsLe0 (((JSNum.num y).sub (JSNum.num y)).mul (multiplier d)) = true := by
  cases d <;> simp [JSNum.sub, JSNum.mul, multiplier, jsLe0]

theorem cmp_tie_le (k : SortKey) (d : SortOrder) (a b c : StockData)
    (hac : cmpStocks k d a c = JSNum.num 0) (hbc : cmpStocks k d b c = JSNum.num 0) :
    stockLe k d a b := by
  cases k
  case symbol =>
    simp only [cmpStocks] at hac hbc
    have h1 := symCmp_zero d _ _ hac
    have h2 := symCmp_zero d _ _ hbc
    cases d
    case asc => rw [stockLe_symbol_asc, h1, h2, strCmp_refl]
    case desc => rw [stockLe_symbol_desc, h1, h2, strCmp_refl]
  case price =>
    simp only [cmpStocks] at hac hbc
    obtain ⟨x, hx1, hx2⟩ := numCmp_zero d _ _ hac
    obtain ⟨y, hy1, hy2⟩ := numCmp_zero d _ _ hbc
    have hxy : x = y := by
      rw [hx2] at hy2
      exact (JSNum.num.injEq x y).mp hy2
    rw [stockLe, cmpStocks, hx1, hy1, hxy]
    exact numCmp_self_le d y
  case change =>
    simp only [cmpStocks] at hac hbc
    obtain ⟨x, hx1, hx2⟩ := numCmp_zero d _ _ hac
    obtain ⟨y, hy1, hy2⟩ := numCmp_zero d _ _ hbc
    have hxy : x = y := by
      rw [hx2] at hy2
      exact (JSNum.num.injEq x y).mp hy2
    rw [stockLe, cmpStocks, hx1, hy1, hxy]
    exact numCmp_self_le d y
  case volume =>
    simp only [cmpStocks] at hac hbc
    obtain ⟨x, hx1, hx2⟩ := numCmp_zero d _ _ hac
    obtain ⟨y, hy1, hy2⟩ := numCmp_zero d _ _ hbc
    have hxy : x = y := by
      rw [hx2] at hy2
      exact (JSNum.num.injEq x y).mp hy2
    rw [stockLe, cmpStocks, hx1, hy1, hxy]
    exact numCmp_self_le d y

/-!  Concrete payloads and records used as test inputs. -/

/-- A payload with `Meta Data` and a two-entry time series whose most recent
entry has no `"4. close"` field. -/
def c1payload : RawPayload :=
  { meta := true
    timeSeries := some
      [("2025-10-10 16:00", { close := RawVal.missing, volume := RawVal.numeric 100 }),
       ("2025-10-10 15:55", { close := RawVal.numeric 10, volume := RawVal.numeric 90 })] }

/-- A payload whose previous entry's close parses to `0`. -/
def c2payload : RawPayload :=
  { meta := true
    timeSeries := some
      [("t2", { close := RawVal.numeric 100, volume := RawVal.numeric 5 }),
       ("t1", { close := RawVal.numeric 0, volume := RawVal.numeric 5 })] }

/-- An otherwise-valid payload whose most recent entry has no `"5. volume"` field. -/
def c4payload : RawPayload :=
  { meta := true
    timeSeries := some
      [("t2", { close := RawVal.numeric 10, volume := RawVal.missing }),
       ("t1", { close := RawVal.numeric 12, volume := RawVal.numeric 7 })] }

/-- A payload accepted by the normalizer whose fields all fail numeric parsing. -/
def c10payload : RawPayload :=
  { meta := true
    timeSeries := some
      [("t2", { close := RawVal.missing, volume := RawVal.missing }),
       ("t1", { close := RawVal.missing, volume := RawVal.missing })] }

/-- The record `parseStockData "AAPL" c10payload` produces. -/
def c10rec : StockData :=
  { symbol := "AAPL", name := "Apple Inc.", price := JSNum.nan, change := JSNum.nan,
    changePercent := JSNum.nan, volume := JSNum.nan, marketCap := none }

/-- A record whose `change` is NaN, as the normalizer produces for a payload
with an unparseable `"4. close"` (compare `c1payload`). -/
def nanChangeStock : StockData :=
  { symbol := "X", name := "X", price := JSNum.nan, change := JSNum.nan,
    changePercent := JSNum.nan, volume := JSNum.nan, marketCap := none }

/-- A record with finite fields. -/
def sampleA : StockData :=
  { symbol := "AAPL", name := "Apple Inc.", price := JSNum.num 175, change := JSNum.num 2,
    changePercent := JSNum.num 1, volume := JSNum.num 45, marketCap := none }

/-- Another record with finite fields and a distinct symbol. -/
def sampleB : StockData :=
  { symbol := "MSFT", name := "Microsoft Corporation", price := JSNum.num 378,
    change := JSNum.num (-1), changePercent := JSNum.num (-1), volume := JSNum.num 34,
    marketCap := none }

/-- A batch of two records with finite fields and pairwise-distinct symbols. -/
def c8batch : List StockData := [sampleB, sampleA]

/-- A two-entry newest-first time series. -/
def c9series : List (String × RawEntry) :=
  [("2025-10-10 16:00", { close := RawVal.numeric 11, volume := RawVal.numeric 3 }),
   ("2025-10-10 15:55", { close := RawVal.numeric 10, volume := RawVal.numeric 2 })]

/-!  Claim C1. -/

/-- C1 counterexample: a payload with `Meta Data`, a time series, and an
absent `"4. close"` on the most recent entry is NOT rejected by
`parseStockData`; it yields a record whose price is NaN, refuting the claim
that the normalizer returns absent for payloads missing a numeric
current-price field. -/
theorem c1_counterexample :
    parseStockData "AAPL" c1payload ≠ none ∧
    (parseStockData "AAPL" c1payload).map StockData.price = some JSNum.nan := by
  constructor
  · decide
  · rfl

/-- C1 (amended): `parseStockData` returns absent exactly when `Meta Data` or
the time series is missing or the series has fewer than two entries; when the
two most recent entries exist it always returns a record whose price is the
`parseFloat` of the most recent `"4. close"` (NaN when that field is absent
or unparseable), rather than returning absent. -/
theorem c1_amended_absent_iff :
    ∀ (s : String) (d : RawPayload),
      (parseStockData s d = none ↔
        d.meta = false ∨ (d.timeSeries.getD []).length < 2) ∧
      (∀ (t1 : String) (e1 : RawEntry) (t2 : String) (e2 : RawEntry)
        (rest : List (String × RawEntry)), d.meta = true →
        d.timeSeries = some ((t1, e1) :: (t2, e2) :: rest) →
        (parseStockData s d).map StockData.price = some (parseFloat e1.close)) := by
  intro s d
  obtain ⟨m, ts⟩ := d
  constructor
  · cases m
    · simp [parseStockData]
    · cases ts with
      | none => simp [parseStockData]
      | some l =>
        rcases l with _ | ⟨⟨u1, f1⟩, _ | ⟨⟨u2, f2⟩, rest⟩⟩
        · simp [parseStockData]
        · simp [parseStockData]
        · simp only [parseStockData, List.length_cons, Option.getD_some]
          constructor
          · intro h
            exact absurd h (by simp)
          · intro h
            rcases h with h | h
            · exact absurd h (by simp)
            · omega
  · intro t1 e1 t2 e2 rest hm hts
    simp only at hm hts
    subst hm
    subst hts
    rfl

/-- C1 witness: the amended characterization evaluated at a concrete payload. -/
theorem c1_witness :
    (parseStockData "AAPL" c1payload = none ↔
      c1payload.meta = false ∨ (c1payload.timeSeries.getD []).length < 2) ∧
    (parseStockData "AAPL" c1payload).map StockData.price = some JSNum.nan :=
  ⟨(c1_amended_absent_iff "AAPL" c1payload).1,
   (c1_amended_absent_iff "AAPL" c1payload).2 "2025-10-10 16:00"
     { close := RawVal.missing, volume := RawVal.numeric 100 } "2025-10-10 15:55"
     { close := RawVal.numeric 10, volume := RawVal.numeric 90 } [] rfl rfl⟩

/-!  Claim C2. -/

/-- C2 counterexample: a payload whose previous reference close parses to `0`
is NOT rejected: `parseStockData` returns a record whose `changePercent` is
+Infinity, refuting the claim that the normalizer returns absent and that no
record carries a non-finite `changePercent`. -/
theorem c2_counterexample :
    parseStockData "TSLA" c2payload ≠ none ∧
    (parseStockData "TSLA" c2payload).map StockData.changePercent = some JSNum.posInf := by
  constructor
  · decide
  · simp [parseStockData, c2payload, parseFloat, JSNum.sub, JSNum.div, JSNum.mul]

/-- C2 (amended): when the previous entry's close parses to zero (and the
current close parses to `p`), `parseStockData` still returns a record; its
`changePercent` is +Infinity for `p > 0`, -Infinity for `p < 0`, and NaN for
`p = 0` — the division by a zero previous price is not guarded. -/
theorem c2_amended_zero_prev :
    ∀ (s : String) (d : RawPayload) (t1 : String) (e1 : RawEntry) (t2 : String)
      (e2 : RawEntry) (rest : List (String × RawEntry)) (p : ℚ),
      d.meta = true → d.timeSeries = some ((t1, e1) :: (t2, e2) :: rest) →
      e1.close = RawVal.numeric p → e2.close = RawVal.numeric 0 →
      parseStockData s d ≠ none ∧
      (parseStockData s d).map StockData.changePercent =
        some (if 0 < p then JSNum.posInf else if p < 0 then JSNum.negInf else JSNum.nan) := by
  intro s d t1 e1 t2 e2 rest p hm hts h1 h2
  obtain ⟨m, ts⟩ := d
  simp only at hm hts
  subst hm
  subst hts
  constructor
  · simp [parseStockData]
  · simp only [parseStockData, Option.map_some']
    rw [h1, h2]
    rcases lt_trichotomy 0 p with hp | hp | hp
    · have hp' : ¬ p < 0 := not_lt.mpr (le_of_lt hp)
      simp [parseFloat, JSNum.sub, JSNum.div, JSNum.mul, sub_zero, hp, hp']
    · rw [← hp]
      simp [parseFloat, JSNum.sub, JSNum.div, JSNum.mul, sub_zero]
    · have hp' : ¬ 0 < p := not_lt.mpr (le_of_lt hp)
      simp [parseFloat, JSNum.sub, JSNum.div, JSNum.mul, sub_zero, hp, hp']

/-- C2 witness: the amended statement evaluated at a concrete payload with a
positive current price, giving +Infinity. -/
theorem c2_witness :
    (parseStockData "TSLA" c2payload).map StockData.changePercent = some JSNum.posInf := by
  have h := (c2_amended_zero_prev "TSLA" c2payload "t2"
    { close := RawVal.numeric 100, volume := RawVal.numeric 5 } "t1"
    { close := RawVal.numeric 0, volume := RawVal.numeric 5 } [] 100 rfl rfl rfl rfl).2
  rw [h]
  norm_num

/-!  Claim C4. -/

/-- C4 counterexample: for an accepted payload whose most recent entry has no
`"5. volume"` field, the resulting record's `volume` is NaN, not `0`,
refuting the claim that the record carries a numeric `0` volume. -/
theorem c4_counterexample :
    parseStockData "MSFT" c4payload ≠ none ∧
    (parseStockData "MSFT" c4payload).map StockData.volume ≠ some (JSNum.num 0) ∧
    (parseStockData "MSFT" c4payload).map StockData.volume = some JSNum.nan := by
  refine ⟨by decide, by decide, rfl⟩

/-- C4 (amended): when the most recent entry's `"5. volume"` is absent or not
numeric, the accepted record's `volume` is NaN; only the render layer
coalesces it (`stock.volume || 0` evaluates to `0`). -/
theorem c4_amended_volume :
    ∀ (s : String) (d : RawPayload) (t1 : String) (e1 : RawEntry) (t2 : String)
      (e2 : RawEntry) (rest : List (String × RawEntry)),
      d.meta = true → d.timeSeries = some ((t1, e1) :: (t2, e2) :: rest) →
      (e1.volume = RawVal.missing ∨ e1.volume = RawVal.nonNumeric) →
      (parseStockData s d).map StockData.volume = some JSNum.nan ∧
      (parseStockData s d).map (fun r => jsOrZero r.volume) = some (JSNum.num 0) := by
  intro s d t1 e1 t2 e2 rest hm hts hv
  obtain ⟨m, ts⟩ := d
  simp only at hm hts
  subst hm
  subst hts
  rcases hv with hv | hv <;>
    simp [parseStockData, parseInt, hv, jsOrZero, JSNum.truthy]

/-- C4 witness: the amended statement evaluated at a concrete payload. -/
theorem c4_witness :
    (parseStockData "MSFT" c4payload).map StockData.volume = some JSNum.nan ∧
    (parseStockData "MSFT" c4payload).map (fun r => jsOrZero r.volume) = some (JSNum.num 0) :=
  c4_amended_volume "MSFT" c4payload "t2"
    { close := RawVal.numeric 10, volume := RawVal.missing } "t1"
    { close := RawVal.numeric 12, volume := RawVal.numeric 7 } [] rfl rfl (Or.inl rfl)

/-!  Claim C5. -/

theorem marketCapOrZero_some (q : ℚ) : marketCapOrZero (some q) = q := by
  by_cases h : q = 0 <;> simp [marketCapOrZero, h]

theorem totalMarketCap_foldl :
    ∀ (l : List StockData) (init : ℚ),
      l.foldl (fun sum stock => sum + marketCapOrZero stock.marketCap) init =
        init + (l.filterMap StockData.marketCap).sum
  | [], init => by simp
  | r :: t, init => by
    rw [List.foldl_cons, totalMarketCap_foldl t]
    cases h : r.marketCap with
    | none => simp [List.filterMap_cons, h, marketCapOrZero]
    | some q =>
      simp only [List.filterMap_cons, h, marketCapOrZero_some, List.sum_cons]
      ring

/-- C5: `totalMarketCap` is the sum of `marketCap` over exactly the records
where it is present; `hasMarketCap` holds iff some record has a present,
strictly positive `marketCap`; and when `hasMarketCap` is false the total is
rendered as `"N/A"`. -/
theorem c5_summary_marketCap :
    ∀ l : List StockData,
      totalMarketCap l = (l.filterMap StockData.marketCap).sum ∧
      (hasMarketCap l = true ↔ ∃ r ∈ l, ∃ q, r.marketCap = some q ∧ 0 < q) ∧
      (hasMarketCap l = false → renderTotalMarketCap l = "N/A") := by
  intro l
  refine ⟨?_, ?_, ?_⟩
  · rw [totalMarketCap, totalMarketCap_foldl]
    simp
  · rw [hasMarketCap, List.any_eq_true]
    constructor
    · rintro ⟨r, hr, hp⟩
      refine ⟨r, hr, ?_⟩
      cases h : r.marketCap with
      | none => simp [h] at hp
      | some q =>
        rw [h] at hp
        by_cases hq : q = 0
        · simp [hq] at hp
        · simp [hq] at hp
          exact ⟨q, rfl, hp⟩
    · rintro ⟨r, hr, q, hq, hpos⟩
      refine ⟨r, hr, ?_⟩
      rw [hq]
      simp [hpos.ne', hpos]
  · intro h
    simp [renderTotalMarketCap, h]

/-- C5 witness: the summary facts evaluated at a concrete batch whose only
record has an absent market cap. -/
theorem c5_witness :
    totalMarketCap [sampleA] = (([sampleA] : List StockData).filterMap StockData.marketCap).sum ∧
    renderTotalMarketCap [sampleA] = "N/A" :=
  ⟨(c5_summary_marketCap [sampleA]).1, (c5_summary_marketCap [sampleA]).2.2 (by decide)⟩

/-!  Claim C6. -/

theorem change_indicator (c : JSNum) :
    ((if jsGt c (JSNum.num 0) = true then 1 else 0) +
      (if JSNum.lt c (JSNum.num 0) = true then 1 else 0) ≤ 1) ∧
    (((if jsGt c (JSNum.num 0) = true then 1 else 0) +
      (if JSNum.lt c (JSNum.num 0) = true then 1 else 0) : ℕ) = 1 ↔
      jsEq c (JSNum.num 0) = false ∧ c ≠ JSNum.nan) := by
  rcases c with _ | _ | _ | q
  · simp [jsGt, JSNum.lt, jsEq]
  · simp [jsGt, JSNum.lt, jsEq]
  · simp [jsGt, JSNum.lt, jsEq]
  · rcases lt_trichotomy q 0 with h | h | h
    · simp [jsGt, JSNum.lt, jsEq, h, lt_asymm h, h.ne]
    · simp [jsGt, JSNum.lt, jsEq, h]
    · simp [jsGt, JSNum.lt, jsEq, h, lt_asymm h, h.ne']

theorem gainers_cons (r : StockData) (t : List StockData) :
    gainers (r :: t) = (if jsGt r.change (JSNum.num 0) = true then 1 else 0) + gainers t := by
  cases hb : jsGt r.change (JSNum.num 0) <;>
    simp [gainers, List.filter_cons, hb, Nat.add_comm]

theorem losers_cons (r : StockData) (t : List StockData) :
    losers (r :: t) = (if JSNum.lt r.change (JSNum.num 0) = true then 1 else 0) + losers t := by
  cases hb : JSNum.lt r.change (JSNum.num 0) <;>
    simp [losers, List.filter_cons, hb, Nat.add_comm]

/-- C6 counterexample: a batch whose only record has NaN `change` (as the
normalizer produces for unparseable closes, compare `c1payload`): no record
satisfies `change == 0`, yet `gainers + losers` is `0`, not the batch length
`1` — refuting the claimed equivalence. -/
theorem c6_counterexample :
    jsEq nanChangeStock.change (JSNum.num 0) = false ∧
    gainers [nanChangeStock] + losers [nanChangeStock] ≠
      ([nanChangeStock] : List StockData).length := by
  constructor <;> decide

/-- C6 (amended): `gainers + losers` never exceeds the batch length, and
equality holds iff every record's `change` compares unequal to `0` AND is not
NaN (a NaN `change`, which JavaScript's `==` also reports as not equal to
`0`, counts toward neither side). -/
theorem c6_amended_counts :
    ∀ l : List StockData,
      gainers l + losers l ≤ l.length ∧
      (gainers l + losers l = l.length ↔
        ∀ r ∈ l, jsEq r.change (JSNum.num 0) = false ∧ r.change ≠ JSNum.nan) := by
  intro l
  induction l with
  | nil => simp [gainers, losers]
  | cons r t ih =>
    obtain ⟨ih1, ih2⟩ := ih
    obtain ⟨e1, e2⟩ := change_indicator r.change
    rw [gainers_cons, losers_cons, List.length_cons]
    constructor
    · omega
    · rw [List.forall_mem_cons]
      constructor
      · intro h
        have hsum : (if jsGt r.change (JSNum.num 0) = true then 1 else 0) +
            (if JSNum.lt r.change (JSNum.num 0) = true then 1 else 0) = 1 ∧
            gainers t + losers t = t.length := by omega
        exact ⟨e2.mp hsum.1, ih2.mp hsum.2⟩
      · rintro ⟨hr, ht⟩
        have h1 := e2.mpr hr
        have h2 := ih2.mpr ht
        omega

/-- C6 witness: the amended bound evaluated at a concrete batch. -/
theorem c6_witness :
    gainers [nanChangeStock] + losers [nanChangeStock] ≤
      ([nanChangeStock] : List StockData).length :=
  (c6_amended_counts [nanChangeStock]).1

/-!  Claim C7. -/

/-- C7: the sort-control state machine has exactly the two claimed
transitions: selecting the active key keeps the key and flips the direction,
and selecting any other key activates it with ascending direction; `handleSort`
is a total function of `(column, state)`, so no other transition exists. -/
theorem c7_handleSort_machine :
    ∀ (s : SortState) (k : SortKey),
      (k = s.sortBy →
        (handleSort k s).sortBy = s.sortBy ∧
        (handleSort k s).sortOrder = toggleOrder s.sortOrder ∧
        (handleSort k s).sortOrder ≠ s.sortOrder) ∧
      (k ≠ s.sortBy → handleSort k s = { sortBy := k, sortOrder := SortOrder.asc }) := by
  intro s k
  constructor
  · intro hk
    rw [handleSort, if_pos hk.symm]
    refine ⟨rfl, rfl, ?_⟩
    cases h : s.sortOrder <;> simp [toggleOrder, h]
  · intro hk
    rw [handleSort, if_neg (fun h => hk h.symm)]

/-- C7 witness: both transitions evaluated at a concrete state. -/
theorem c7_witness :
    (handleSort SortKey.symbol
      { sortBy := SortKey.symbol, sortOrder := SortOrder.asc }).sortOrder ≠ SortOrder.asc ∧
    handleSort SortKey.price { sortBy := SortKey.symbol, sortOrder := SortOrder.asc } =
      { sortBy := SortKey.price, sortOrder := SortOrder.asc } :=
  ⟨((c7_handleSort_machine { sortBy := SortKey.symbol, sortOrder := SortOrder.asc }
      SortKey.symbol).1 rfl).2.2,
   (c7_handleSort_machine { sortBy := SortKey.symbol, sortOrder := SortOrder.asc }
      SortKey.price).2 (by decide)⟩

/-!  Claim C10. -/

theorem parseStockData_marketCap_none (s : String) (d : RawPayload) (r : StockData)
    (h : parseStockData s d = some r) : r.marketCap = none := by
  obtain ⟨m, ts⟩ := d
  cases m
  · simp [parseStockData] at h
  · cases ts with
    | none => simp [parseStockData] at h
    | some l =>
      rcases l with _ | ⟨⟨u1, f1⟩, _ | ⟨⟨u2, f2⟩, rest⟩⟩
      · simp [parseStockData] at h
      · simp [parseStockData] at h
      · exact Option.some_injective _ h ▸ rfl

/-- C10: every record the normalizer produces has an absent `marketCap`;
consequently any batch consisting of normalizer outputs has
`hasMarketCap = false` and the market-cap total renders as `"N/A"`. -/
theorem c10_pipeline_no_marketCap :
    ∀ l : List StockData, (∀ r ∈ l, ∃ s d, parseStockData s d = some r) →
      (∀ r ∈ l, r.marketCap = none) ∧ hasMarketCap l = false ∧
      renderTotalMarketCap l = "N/A" := by
  intro l hl
  have hmc : ∀ r ∈ l, r.marketCap = none := by
    intro r hr
    obtain ⟨s, d, h⟩ := hl r hr
    exact parseStockData_marketCap_none s d r h
  have hno : hasMarketCap l = false := by
    rw [hasMarketCap]
    rw [List.any_eq_false]
    intro r hr
    rw [hmc r hr]
    simp
  exact ⟨hmc, hno, by simp [renderTotalMarketCap, hno]⟩

/-- C10 witness: a batch produced by the normalizer from a concrete payload,
with `hasMarketCap` false and the total rendered `"N/A"`. -/
theorem c10_witness :
    c10rec.marketCap = none ∧ hasMarketCap [c10rec] = false ∧
    renderTotalMarketCap [c10rec] = "N/A" := by
  have h := c10_pipeline_no_marketCap [c10rec] (by
    intro r hr
    rw [List.mem_singleton] at hr
    subst hr
    exact ⟨"AAPL", c10payload, rfl⟩)
  exact ⟨h.1 c10rec (List.mem_singleton_self c10rec), h.2.1, h.2.2⟩

/-!  Claim C9. -/

theorem buildSeries_length (ts : List (String × RawEntry)) :
    (buildSeries ts).length = ts.length := by
  simp [buildSeries]

theorem buildSeries_get (ts : List (String × RawEntry)) (i : ℕ) (h : i < ts.length)
    (h2 : ts.length - 1 - i < (buildSeries ts).length) :
    (buildSeries ts).get ⟨ts.length - 1 - i, h2⟩ =
      ((ts.get ⟨i, h⟩).1, parseFloat (ts.get ⟨i, h⟩).2.close) := by
  rw [List.get_eq_getElem, List.get_eq_getElem]
  simp only [buildSeries]
  rw [List.getElem_reverse]
  simp only [List.length_map]
  simp only [show ts.length - 1 - (ts.length - 1 - i) = i from by omega]
  rw [List.getElem_map]
  rfl

/-- C9: the chart series builder emits exactly one point per series entry, in
the exact reverse of the provider-native order — entry `i` of the input lands
at output position `length - 1 - i`, paired with the `parseFloat` of its
`"4. close"` — and when the input is newest-first (labels strictly decreasing
in time), the output is strictly oldest-to-newest. -/
theorem c9_chart_series_order :
    ∀ ts : List (String × RawEntry),
      (buildSeries ts).length = ts.length ∧
      (∀ (i : ℕ) (h : i < ts.length) (h2 : ts.length - 1 - i < (buildSeries ts).length),
        (buildSeries ts).get ⟨ts.length - 1 - i, h2⟩ =
          ((ts.get ⟨i, h⟩).1, parseFloat (ts.get ⟨i, h⟩).2.close)) ∧
      (List.Pairwise (fun a b => strCmp b.1 a.1 < 0) ts →
        List.Pairwise (fun a b : String × JSNum => strCmp a.1 b.1 < 0) (buildSeries ts)) := by
  intro ts
  refine ⟨buildSeries_length ts, fun i h h2 => buildSeries_get ts i h h2, ?_⟩
  intro hts
  simp only [buildSeries]
  rw [List.pairwise_reverse, List.pairwise_map]
  exact hts

/-- C9 witness: the ordering facts evaluated at a concrete two-point
newest-first series. -/
theorem c9_witness :
    (buildSeries c9series).length = c9series.length ∧
    (buildSeries c9series).get ⟨c9series.length - 1 - 0, by decide⟩ =
      ((c9series.get ⟨0, by decide⟩).1, parseFloat (c9series.get ⟨0, by decide⟩).2.close) ∧
    List.Pairwise (fun a b : String × JSNum => strCmp a.1 b.1 < 0) (buildSeries c9series) :=
  ⟨(c9_chart_series_order c9series).1,
   (c9_chart_series_order c9series).2.1 0 (by decide) (by decide),
   (c9_chart_series_order c9series).2.2 (by decide)⟩

/-!  Claim C8. -/

theorem sortStocks_desc_reverse :
    ∀ l : List StockData, l.Pairwise (fun a b => strCmp a.symbol b.symbol = -1) →
      sortStocks SortKey.symbol SortOrder.desc l = l.reverse
  | [], _ => rfl
  | x :: xs, h => by
    rw [List.pairwise_cons] at h
    obtain ⟨hx, hxs⟩ := h
    show List.insertionSort _ (x :: xs) = _
    rw [List.insertionSort,
      show List.insertionSort (stockLe SortKey.symbol SortOrder.desc) xs = xs.reverse from
        sortStocks_desc_reverse xs hxs,
      orderedInsert_append_of]
    · simp
    · intro y hy
      rw [List.mem_reverse] at hy
      rw [stockLe_symbol_desc, hx y hy]
      norm_num

/-- C8: on record lists whose selected sort field is a finite number (the
spec's data-model invariant; JavaScript's sort is only specified for
consistent comparators, which excludes NaN fields), sorting is idempotent;
sorting is stable in the sense that every comparator-tie class keeps its
relative input order; and for lists with pairwise-distinct symbols, sorting
by symbol ascending and then descending yields the exact reverse order. -/
theorem c8_sort_properties :
    ∀ (k : SortKey) (d : SortOrder) (l : List StockData),
      (∀ r ∈ l, keyFinite k r = true) →
      (sortStocks k d (sortStocks k d l) = sortStocks k d l ∧
       (∀ c : StockData,
          (sortStocks k d l).filter (fun r => decide (cmpStocks k d r c = JSNum.num 0)) =
            l.filter (fun r => decide (cmpStocks k d r c = JSNum.num 0))) ∧
       (l.Pairwise (fun a b => a.symbol ≠ b.symbol) →
          sortStocks SortKey.symbol SortOrder.desc (sortStocks SortKey.symbol SortOrder.asc l) =
            (sortStocks SortKey.symbol SortOrder.asc l).reverse)) := by
  intro k d l hfin
  refine ⟨?_, ?_, ?_⟩
  · exact List.Sorted.insertionSort_eq
      (sorted_insertionSort_of (stockLe k d) (fun r => keyFinite k r = true)
        (fun a b ha hb => stockLe_total k d a b ha hb)
        (fun a b c ha hb hc => stockLe_trans k d a b c ha hb hc) l hfin)
  · intro c
    exact filter_insertionSort_of (stockLe k d) _
      (fun a b hpa hpb =>
        cmp_tie_le k d a b c (of_decide_eq_true hpa) (of_decide_eq_true hpb)) l
  · intro hdist
    have hsorted : (sortStocks SortKey.symbol SortOrder.asc l).Sorted
        (stockLe SortKey.symbol SortOrder.asc) :=
      sorted_insertionSort_of _ (fun r => keyFinite SortKey.symbol r = true)
        (fun a b ha hb => stockLe_total SortKey.symbol SortOrder.asc a b ha hb)
        (fun a b c ha hb hc => stockLe_trans SortKey.symbol SortOrder.asc a b c ha hb hc)
        l (fun r _ => rfl)
    have hperm : List.Perm (sortStocks SortKey.symbol SortOrder.asc l) l :=
      List.perm_insertionSort _ l
    have hne : (sortStocks SortKey.symbol SortOrder.asc l).Pairwise
        (fun a b => a.symbol ≠ b.symbol) :=
      (hperm.pairwise_iff fun h => Ne.symm h).mpr hdist
    have hstrict : (sortStocks SortKey.symbol SortOrder.asc l).Pairwise
        (fun a b => strCmp a.symbol b.symbol = -1) := by
      have hand := List.Pairwise.and hsorted hne
      refine hand.imp ?_
      rintro a b ⟨hle, hneq⟩
      rw [stockLe_symbol_asc] at hle
      rcases strCmp_cases a.symbol b.symbol with h | h | h
      · exact h
      · exact absurd (strCmp_eq_zero _ _ h) hneq
      · rw [h] at hle
        norm_num at hle
    exact sortStocks_desc_reverse _ hstrict

/-- C8 witness: idempotence and the ascending-then-descending reversal
evaluated at a concrete batch with finite fields and distinct symbols. -/
theorem c8_witness :
    sortStocks SortKey.price SortOrder.asc (sortStocks SortKey.price SortOrder.asc c8batch) =
      sortStocks SortKey.price SortOrder.asc c8batch ∧
    sortStocks SortKey.symbol SortOrder.desc (sortStocks SortKey.symbol SortOrder.asc c8batch) =
      (sortStocks SortKey.symbol SortOrder.asc c8batch).reverse :=
  ⟨(c8_sort_properties SortKey.price SortOrder.asc c8batch (by decide)).1,
   (c8_sort_properties SortKey.symbol SortOrder.asc c8batch (by decide)).2.2 (by decide)⟩
